import Mathlib

/-!
# Verification of the tuicr diff-parsing and navigation engine

Shallow embedding of the core of the repository:

* `src/vcs/jj/diff_parser.rs` — the unified-diff text parser
  (`parse_unified_diff`, `parse_file_header`, `parse_hunk`,
  `parse_hunk_header`, `parse_range`);
* `src/app.rs` — the navigation engine (`jump_to_file`, `next_file`,
  `prev_file`, `scroll_down`, `scroll_up`,
  `update_current_file_from_scroll`, `file_render_height`,
  `calculate_file_scroll_offset`);
* `src/model/review.rs` — the review-session model (`add_file`);
* `src/ui/app_layout.rs` — the side-by-side aligner
  (`render_hunk_lines_side_by_side` and helpers).

Rust strings are modelled as `List Char`; a Rust `&str` line of diff text
becomes one `List Char`.  `u32`/`usize` become `Nat` (no hunk in range has
2^32 lines, and `usize` saturating arithmetic is exactly `Nat` `+`/`-`;
`u32::from_str` overflow is modelled explicitly in `parseU32`).  Loops whose
cursor can advance by more than one element per iteration are written with a
fuel argument instantiated with the input length; every iteration of the
corresponding Rust loop consumes at least one line of input, so that fuel is
never exhausted before the input is (`parse_files_go_fuel` below proves the
fuel irrelevance).
-/

namespace Tuicr

/-- Convert a string literal to the `List Char` representation used
throughout the embedding. -/
def str (s : String) : List Char := s.toList

/-- Model of Rust `str::starts_with` on lines. -/
def startsWith (pat l : List Char) : Bool := pat.isPrefixOf l

/-- Model of Rust `str::contains` (substring search), used for the
`Binary` marker test. -/
def containsSub (needle : List Char) : List Char → Bool
  | [] => needle.isEmpty
  | c :: rest => needle.isPrefixOf (c :: rest) || containsSub needle rest

/-- Fuel-driven loop of `trim_start_matches`: repeatedly strip the pattern
from the front while it matches.  Each successful strip removes at least one
character (patterns in the source are nonempty), so fuel equal to the input
length is always sufficient. -/
def trimRepGo (pat : List Char) : Nat → List Char → List Char
  | 0, l => l
  | fuel + 1, l =>
    if pat ≠ [] ∧ pat.isPrefixOf l then trimRepGo pat fuel (l.drop pat.length) else l

/-- Model of Rust `str::trim_start_matches` with a string (or single-char)
pattern: strips every leading repetition of the pattern, not just the
first. -/
def trimStartMatches (pat l : List Char) : List Char := trimRepGo pat l.length l

/-- Model of Rust `str::split_once(c)`: split at the first occurrence of
`c`, returning the parts before and after it. -/
def splitOnce (c : Char) : List Char → Option (List Char × List Char)
  | [] => none
  | x :: rest =>
    if x = c then some ([], rest)
    else (splitOnce c rest).map (fun p => (x :: p.1, p.2))

/-- Accumulator loop for `splitWs` (`cur` holds the current word,
reversed). -/
def splitWsGo (cur : List Char) : List Char → List (List Char)
  | [] => if cur = [] then [] else [cur.reverse]
  | c :: rest =>
    if c.isWhitespace then
      if cur = [] then splitWsGo [] rest else cur.reverse :: splitWsGo [] rest
    else splitWsGo (c :: cur) rest

/-- Model of Rust `str::split_whitespace`: maximal runs of
non-whitespace characters (the inputs at its one call site, hunk headers,
contain only ASCII whitespace, where Rust and Lean whitespace agree). -/
def splitWs (l : List Char) : List (List Char) := splitWsGo [] l

/-- Decimal value of a digit list (only applied to all-digit lists). -/
def digitsToNat (l : List Char) : Nat :=
  l.foldl (fun a c => a * 10 + (c.toNat - 48)) 0

/-- Model of Rust `u32::from_str`: optional leading `+`, then a nonempty
run of ASCII digits whose value fits in a `u32`; anything else fails. -/
def parseU32 (l : List Char) : Option Nat :=
  let l' := match l with
    | '+' :: r => r
    | _ => l
  if l' ≠ [] ∧ l'.all (fun c => c.isDigit) then
    let v := digitsToNat l'
    if v < 4294967296 then some v else none
  else none

/-! ## Diff model

The crate's `model` module (diff types and comments) is not among the
provided sources; the fields below follow spec §3 and the constructor
sites in `diff_parser.rs`.  The optional pre-rendered highlight segments of
a `DiffLine` are an external rendering decoration (spec §1) and are
omitted. -/

/-- Classification of one physical diff line (spec §3 Origin). -/
inductive LineOrigin
  | addition
  | deletion
  | context
deriving DecidableEq, Repr

/-- Per-file change status (spec §3). -/
inductive FileStatus
  | added
  | deleted
  | modified
  | renamed
  | copied
deriving DecidableEq, Repr

/-- One physical line of a hunk (spec §3 DiffLine). -/
structure DiffLine where
  origin : LineOrigin
  content : List Char
  old_lineno : Option Nat
  new_lineno : Option Nat
deriving DecidableEq, Repr

/-- A contiguous change region (spec §3 DiffHunk). -/
structure DiffHunk where
  header : List Char
  lines : List DiffLine
  old_start : Nat
  old_count : Nat
  new_start : Nat
  new_count : Nat
deriving DecidableEq, Repr

/-- One file's change (spec §3 DiffFile); paths are the parsed path
strings. -/
structure DiffFile where
  old_path : Option (List Char)
  new_path : Option (List Char)
  status : FileStatus
  hunks : List DiffHunk
  is_binary : Bool
deriving DecidableEq, Repr

/-- Display path: new path if present else old path (spec §3). -/
def DiffFile.display_path (f : DiffFile) : Option (List Char) :=
  f.new_path.or f.old_path

/-- Parse errors; only the `NoChanges` variant is reachable from the
parser (`error.rs` is not among the provided sources; spec §7 names the
kinds). -/
inductive TuicrError
  | noChanges
deriving DecidableEq, Repr

/-! ## Unified diff parser (`src/vcs/jj/diff_parser.rs`)

The Rust parser walks a peekable line iterator; here each phase is a
function from the remaining lines to its result together with the lines it
leaves unconsumed. -/

/-- Model of Rust `str::lines`: split on `'\n'`, dropping a `'\r'` that
immediately precedes a `'\n'`; a final fragment without a newline is kept
as-is, and empty input yields no lines. -/
def rustLines (text : List Char) : List (List Char) :=
  go [] text
where
  /-- `acc` holds the current line, reversed. -/
  go (acc : List Char) : List Char → List (List Char)
    | [] => if acc = [] then [] else [acc.reverse]
    | c :: rest =>
      if c = '\n' then
        (match acc with
          | '\r' :: acc' => acc'.reverse
          | _ => acc.reverse) :: go [] rest
      else go (c :: acc) rest

/-- Loop body of `parse_file_header`: scan metadata lines, recording the
`---`/`+++` paths and any explicit status marker, mirroring the source's
branch order; returns the raw accumulator and the unconsumed lines. -/
def parse_file_header_go (old_path new_path : Option (List Char)) (status : FileStatus) :
    List (List Char) → (Option (List Char) × Option (List Char) × FileStatus) × List (List Char)
  | [] => ((old_path, new_path, status), [])
  | l :: rest =>
    if startsWith (str "---") l then
      let path_str := trimStartMatches (str "a/") (trimStartMatches (str "--- ") l)
      let old' := if path_str ≠ str "/dev/null" then some path_str else old_path
      parse_file_header_go old' new_path status rest
    else if startsWith (str "+++") l then
      let path_str := trimStartMatches (str "b/") (trimStartMatches (str "+++ ") l)
      let new' := if path_str ≠ str "/dev/null" then some path_str else new_path
      ((old_path, new', status), rest)
    else if startsWith (str "new file") l then
      parse_file_header_go old_path new_path FileStatus.added rest
    else if startsWith (str "deleted file") l then
      parse_file_header_go old_path new_path FileStatus.deleted rest
    else if startsWith (str "rename from") l then
      parse_file_header_go old_path new_path FileStatus.renamed rest
    else if startsWith (str "copy from") l then
      parse_file_header_go old_path new_path FileStatus.copied rest
    else if startsWith (str "@@") l || startsWith (str "diff ") l ||
        containsSub (str "Binary") l then
      ((old_path, new_path, status), l :: rest)
    else
      parse_file_header_go old_path new_path status rest

/-- Model of `parse_file_header`: run the metadata loop starting from
`Modified`, then infer the status from path presence when no explicit
marker set it. -/
def parse_file_header (ls : List (List Char)) :
    (Option (List Char) × Option (List Char) × FileStatus) × List (List Char) :=
  let r := parse_file_header_go none none FileStatus.modified ls
  let old_path := r.1.1
  let new_path := r.1.2.1
  let status := r.1.2.2
  let status' :=
    if status = FileStatus.modified then
      if old_path.isNone ∧ new_path.isSome then FileStatus.added
      else if old_path.isSome ∧ new_path.isNone then FileStatus.deleted
      else status
    else status
  ((old_path, new_path, status'), r.2)

/-- Model of Rust `(start, count) = parse_range(s)`: split at the first
comma; a missing or unparsable component defaults to 1. -/
def parse_range (s : List Char) : Nat × Nat :=
  match splitOnce ',' s with
  | some p => ((parseU32 p.1).getD 1, (parseU32 p.2).getD 1)
  | none => ((parseU32 s).getD 1, 1)

/-- Model of `parse_hunk_header`: whitespace-split the header, require at
least three parts with the first literally `@@`, strip leading `-`/`+`
and parse the two ranges. -/
def parse_hunk_header (l : List Char) : Option (Nat × Nat × Nat × Nat) :=
  match splitWs l with
  | p0 :: p1 :: p2 :: _ =>
    if p0 = str "@@" then
      let o := parse_range (trimStartMatches ['-'] p1)
      let n := parse_range (trimStartMatches ['+'] p2)
      some (o.1, o.2, n.1, n.2)
    else none
  | _ => none

/-- Body loop of `parse_hunk`: consume lines until the next `@@` or
`diff ` line, classifying each as addition / deletion / context (with the
running per-side line counters) or skipping it, exactly as the source's
`while` loop does. -/
def parse_hunk_body (old_lineno new_lineno : Nat) :
    List (List Char) → List DiffLine × List (List Char)
  | [] => ([], [])
  | l :: rest =>
    if startsWith (str "@@") l || startsWith (str "diff ") l then
      ([], l :: rest)
    else if startsWith ['\\'] l then
      parse_hunk_body old_lineno new_lineno rest
    else if startsWith ['+'] l then
      if startsWith (str "+++") l then parse_hunk_body old_lineno new_lineno rest
      else
        let r := parse_hunk_body old_lineno (new_lineno + 1) rest
        (⟨LineOrigin.addition, l.drop 1, none, some new_lineno⟩ :: r.1, r.2)
    else if startsWith ['-'] l then
      if startsWith (str "---") l then parse_hunk_body old_lineno new_lineno rest
      else
        let r := parse_hunk_body (old_lineno + 1) new_lineno rest
        (⟨LineOrigin.deletion, l.drop 1, some old_lineno, none⟩ :: r.1, r.2)
    else if startsWith [' '] l then
      let r := parse_hunk_body (old_lineno + 1) (new_lineno + 1) rest
      (⟨LineOrigin.context, l.drop 1, some old_lineno, some new_lineno⟩ :: r.1, r.2)
    else if l = [] then
      let r := parse_hunk_body (old_lineno + 1) (new_lineno + 1) rest
      (⟨LineOrigin.context, [], some old_lineno, some new_lineno⟩ :: r.1, r.2)
    else
      parse_hunk_body old_lineno new_lineno rest

/-- Model of `parse_hunk`: consume the header line; if its ranges parse,
collect the body with the counters started at the declared start values
(syntax highlighting, an external decoration, is omitted). -/
def parse_hunk : List (List Char) → Option DiffHunk × List (List Char)
  | [] => (none, [])
  | l :: rest =>
    match parse_hunk_header l with
    | none => (none, rest)
    | some r =>
      let body := parse_hunk_body r.1 r.2.2.1 rest
      (some ⟨l, body.1, r.1, r.2.1, r.2.2.1, r.2.2.2⟩, body.2)

/-- Hunk-collection loop of `parse_unified_diff`: gather hunks until the
next `diff ` line or the end of input, skipping unrecognized lines.  Each
iteration consumes at least one line, so fuel equal to the input length
never runs out. -/
def parse_hunks_go : Nat → List (List Char) → List DiffHunk × List (List Char)
  | _, [] => ([], [])
  | 0, ls => ([], ls)
  | fuel + 1, l :: rest =>
    if startsWith (str "diff ") l then ([], l :: rest)
    else if startsWith (str "@@") l then
      let h := parse_hunk (l :: rest)
      let r := parse_hunks_go fuel h.2
      (match h.1 with
        | some hk => hk :: r.1
        | none => r.1, r.2)
    else parse_hunks_go fuel rest

/-- Entry point of the hunk-collection loop. -/
def parse_hunks (ls : List (List Char)) : List DiffHunk × List (List Char) :=
  parse_hunks_go ls.length ls

/-- Outer loop of `parse_unified_diff`: find `diff --git ` headers, parse
each file section (binary sections get an empty hunk list), skipping all
other lines.  Each iteration consumes at least one line, so fuel equal to
the input length never runs out. -/
def parse_files_go : Nat → List (List Char) → List DiffFile
  | _, [] => []
  | 0, _ => []
  | fuel + 1, l :: rest =>
    if startsWith (str "diff --git ") l then
      let h := parse_file_header rest
      let old_path := h.1.1
      let new_path := h.1.2.1
      let status := h.1.2.2
      match h.2 with
      | b :: r2 =>
        if containsSub (str "Binary") b then
          ⟨old_path, new_path, status, [], true⟩ :: parse_files_go fuel r2
        else
          let hs := parse_hunks (b :: r2)
          ⟨old_path, new_path, status, hs.1, false⟩ :: parse_files_go fuel hs.2
      | [] => [⟨old_path, new_path, status, [], false⟩]
    else parse_files_go fuel rest

/-- Model of `parse_unified_diff`: split the text into lines, run the
file loop, and fail with `NoChanges` when no file section was found. -/
def parse_unified_diff (text : List Char) : Except TuicrError (List DiffFile) :=
  let ls := rustLines text
  let files := parse_files_go ls.length ls
  if files = [] then Except.error TuicrError.noChanges else Except.ok files

/-! ## Review session model (`src/model/review.rs`)

`Comment` lives in the crate's `model/comment.rs`, which is not among the
provided sources.  Modelled from the spec: §3 gives a comment free-text
content, a classification tag (Note | Suggestion | Issue | Praise) and an
optional side (Old | New).  `HashMap`s are modelled as association lists
observed through `List.lookup`; `entry(..).or_insert_with(..)` inserts
only when the key is absent, so the list never carries duplicate keys. -/

/-- Side of a line comment.  Modelled from the spec: §3 Comment, "an
optional side (Old | New)". -/
inductive LineSide
  | old
  | new
deriving DecidableEq, Repr

/-- Comment classification tag.  Modelled from the spec: §3 Comment,
"a classification tag (Note | Suggestion | Issue | Praise)". -/
inductive CommentType
  | note
  | suggestion
  | issue
  | praise
deriving DecidableEq, Repr

/-- A review comment.  Modelled from the spec: §3 Comment (free-text
content, classification tag, optional side). -/
structure Comment where
  content : List Char
  comment_type : CommentType
  side : Option LineSide
deriving DecidableEq, Repr

/-- Per-file review state (`FileReview` in `review.rs`). -/
structure FileReview where
  path : List Char
  reviewed : Bool
  status : FileStatus
  file_comments : List Comment
  line_comments : List (Nat × List Comment)
deriving DecidableEq, Repr

/-- `FileReview::new`: fresh, unreviewed, no comments. -/
def FileReview.new (path : List Char) (status : FileStatus) : FileReview :=
  ⟨path, false, status, [], []⟩

/-- One review pass (`ReviewSession` in `review.rs`); timestamps are
opaque naturals. -/
structure ReviewSession where
  id : List Char
  version : List Char
  repo_path : List Char
  base_commit : List Char
  created_at : Nat
  updated_at : Nat
  files : List (List Char × FileReview)
  session_notes : Option (List Char)
deriving DecidableEq, Repr

/-- Model of `ReviewSession::add_file`: insert a fresh `FileReview` only
when the path is not yet tracked (`files.entry(path).or_insert_with`). -/
def ReviewSession.add_file (s : ReviewSession) (path : List Char) (status : FileStatus) :
    ReviewSession :=
  if (s.files.lookup path).isSome then s
  else { s with files := (path, FileReview.new path status) :: s.files }

/-! ## Navigation engine (`src/app.rs`)

Only the fields the navigation operations read or write are modelled
(`diff_files`, `DiffState`, `FileListState`); the session, buffers and
flags of `App` are untouched by them. -/

/-- Scroll/cursor state of the diff panel (`DiffState`). -/
structure DiffState where
  scroll_offset : Nat
  cursor_line : Nat
  current_file_idx : Nat
deriving DecidableEq, Repr

/-- File-list selection state (`FileListState`). -/
structure FileListState where
  selected : Nat
  offset : Nat
deriving DecidableEq, Repr

/-- The navigation-relevant slice of `App`. -/
structure App where
  diff_files : List DiffFile
  diff_state : DiffState
  file_list_state : FileListState
deriving DecidableEq, Repr

/-- `App` as constructed by `App::new`: both states are `Default`
(all-zero). -/
def App.init (files : List DiffFile) : App :=
  ⟨files, ⟨0, 0, 0⟩, ⟨0, 0⟩⟩

/-- Model of `App::current_file`: `diff_files.get(current_file_idx)`. -/
def App.current_file (app : App) : Option DiffFile :=
  app.diff_files.get? app.diff_state.current_file_idx

/-- Model of `App::file_render_height`: 2 header lines plus the content
lines (one per diff line plus one hunk-header line per hunk), floored at
1. -/
def file_render_height (f : DiffFile) : Nat :=
  2 + max ((f.hunks.map (fun h => h.lines.length + 1)).sum) 1

/-- Countdown loop of `calculate_file_scroll_offset`: sum the render
heights of the files before index `file_idx` (the Rust loop breaks at
`i == file_idx`, so an out-of-range index sums every file). -/
def calculate_file_scroll_offset_go : Nat → List DiffFile → Nat
  | _, [] => 0
  | 0, _ => 0
  | k + 1, f :: rest => file_render_height f + calculate_file_scroll_offset_go k rest

/-- Model of `App::calculate_file_scroll_offset`. -/
def calculate_file_scroll_offset (files : List DiffFile) (file_idx : Nat) : Nat :=
  calculate_file_scroll_offset_go file_idx files

/-- The walk of `update_current_file_from_scroll`, with the cumulative sum
eliminated: the first file index whose row range (`cumulative` up to
`cumulative + height`, exclusive) contains `off`, or `none` when `off` is
past the last file. -/
def fileAtOffset : List DiffFile → Nat → Option Nat
  | [], _ => none
  | f :: rest, off =>
    if off < file_render_height f then some 0
    else (fileAtOffset rest (off - file_render_height f)).map (· + 1)

/-- Model of `App::update_current_file_from_scroll`: point
`current_file_idx`/`selected` at the file owning `scroll_offset`, or at
the last file when the offset is past the end; no-op on an empty
changeset. -/
def update_current_file_from_scroll (app : App) : App :=
  match fileAtOffset app.diff_files app.diff_state.scroll_offset with
  | some i =>
    { app with
      diff_state := { app.diff_state with current_file_idx := i },
      file_list_state := { app.file_list_state with selected := i } }
  | none =>
    if app.diff_files ≠ [] then
      { app with
        diff_state := { app.diff_state with current_file_idx := app.diff_files.length - 1 },
        file_list_state := { app.file_list_state with selected := app.diff_files.length - 1 } }
    else app

/-- Model of `App::scroll_down` (`usize` saturating addition never
saturates on `Nat`). -/
def scroll_down (app : App) (lines : Nat) : App :=
  update_current_file_from_scroll
    { app with diff_state := { app.diff_state with
        scroll_offset := app.diff_state.scroll_offset + lines } }

/-- Model of `App::scroll_up` (`Nat` subtraction is Rust's saturating
subtraction). -/
def scroll_up (app : App) (lines : Nat) : App :=
  update_current_file_from_scroll
    { app with diff_state := { app.diff_state with
        scroll_offset := app.diff_state.scroll_offset - lines } }

/-- Model of `App::jump_to_file`: only a valid index moves the cursor;
it recomputes `scroll_offset` from the render heights of the preceding
files and synchronizes `selected`. -/
def jump_to_file (app : App) (idx : Nat) : App :=
  if idx < app.diff_files.length then
    { app with
      diff_state := { app.diff_state with
        current_file_idx := idx,
        scroll_offset := calculate_file_scroll_offset app.diff_files idx },
      file_list_state := { app.file_list_state with selected := idx } }
  else app

/-- Model of `App::next_file`. -/
def next_file (app : App) : App :=
  jump_to_file app (min (app.diff_state.current_file_idx + 1) (app.diff_files.length - 1))

/-- Model of `App::prev_file`. -/
def prev_file (app : App) : App :=
  jump_to_file app (app.diff_state.current_file_idx - 1)

/-- One navigation operation, for stating "after any finite sequence of
calls". -/
inductive NavOp
  | jump (idx : Nat)
  | next
  | prev
  | down (lines : Nat)
  | up (lines : Nat)
deriving DecidableEq, Repr

/-- Apply one navigation operation. -/
def applyOp (app : App) : NavOp → App
  | NavOp.jump idx => jump_to_file app idx
  | NavOp.next => next_file app
  | NavOp.prev => prev_file app
  | NavOp.down n => scroll_down app n
  | NavOp.up n => scroll_up app n

/-- Apply a sequence of navigation operations, first to last. -/
def applyOps (app : App) (ops : List NavOp) : App :=
  ops.foldl applyOp app

/-- Total rendered row count of a changeset under the code's
`file_render_height`. -/
def totalRows (files : List DiffFile) : Nat :=
  (files.map file_render_height).sum

/-- Whether `scroll_offset` lies in the row range belonging to the file
at `current_file_idx` (range start = sum of heights of the files before
it, range length = that file's render height). -/
def scrollInCurrentFileRange (app : App) : Bool :=
  match app.diff_files.get? app.diff_state.current_file_idx with
  | none => false
  | some f =>
    let start := calculate_file_scroll_offset app.diff_files app.diff_state.current_file_idx
    decide (start ≤ app.diff_state.scroll_offset) &&
      decide (app.diff_state.scroll_offset < start + file_render_height f)

/-! ## Side-by-side aligner (`src/ui/app_layout.rs`)

The renderer pushes styled terminal lines; the embedding abstracts each
pushed line to an `SbsRow`, keeping the structure the claims are about:
which diff line occupies which column, and where comment rows are
injected.  `format_comment_lines` (text wrapping) is external rendering;
it enters only through `fmt : Comment → Nat`, the number of rows a
comment renders to. -/

/-- One row of the side-by-side view: a data row with an optional left
(old/deletion) and right (new/addition) column — `none` is a blank
column — or the `j`-th rendered row of a comment. -/
inductive SbsRow
  | data (left right : Option DiffLine)
  | commentRow (c : Comment) (j : Nat)
deriving DecidableEq, Repr

/-- Model of `add_comments_to_line`: emit, in order, the rendered rows of
every comment on `line_num` whose (defaulted-to-New) side matches the
column being rendered. -/
def add_comments_to_line (fmt : Comment → Nat) (line_num : Nat)
    (line_comments : Nat → List Comment) (side : LineSide) : List SbsRow :=
  ((line_comments line_num).filter (fun c =>
    let comment_side := c.side.getD LineSide.new
    match side, comment_side with
    | LineSide.old, LineSide.old => true
    | LineSide.new, LineSide.old => false
    | LineSide.new, LineSide.new => true
    | LineSide.old, LineSide.new => false)).flatMap
    (fun c => (List.range (fmt c)).map (SbsRow.commentRow c))

/-- Model of `render_deletion_addition_pair_side_by_side` on the already
collected runs: pair deletion `i` with addition `i` positionally, the
shorter run's side blank for the excess rows, each side's comments
directly after the row. -/
def render_pair_block (fmt : Comment → Nat) (line_comments : Nat → List Comment)
    (dels adds : List DiffLine) : List SbsRow :=
  (List.range (max dels.length adds.length)).flatMap (fun offset =>
    SbsRow.data (dels.get? offset) (adds.get? offset) ::
      ((match dels.get? offset with
        | some d =>
          match d.old_lineno with
          | some ln => add_comments_to_line fmt ln line_comments LineSide.old
          | none => []
        | none => []) ++
      (match adds.get? offset with
        | some a =>
          match a.new_lineno with
          | some ln => add_comments_to_line fmt ln line_comments LineSide.new
          | none => []
        | none => [])))

/-- Comment rows attached after a context or standalone-addition row
(both use the new-side line number). -/
def new_side_comments (fmt : Comment → Nat) (line_comments : Nat → List Comment)
    (l : DiffLine) : List SbsRow :=
  match l.new_lineno with
  | some ln => add_comments_to_line fmt ln line_comments LineSide.new
  | none => []

/-- Loop of `render_hunk_lines_side_by_side`: context rows show the line
in both columns; a deletion starts a maximal deletion run paired with the
maximal addition run right after it; an addition with no preceding
deletion renders alone in the right column.  The deletion branch consumes
the whole pair of runs, so the loop is written with fuel (the input
length, never exhausted since each iteration consumes at least one
line). -/
def render_hunk_lines_go (fmt : Comment → Nat) (line_comments : Nat → List Comment) :
    Nat → List DiffLine → List SbsRow
  | _, [] => []
  | 0, _ => []
  | fuel + 1, l :: rest =>
    match l.origin with
    | LineOrigin.context =>
      SbsRow.data (some l) (some l) :: new_side_comments fmt line_comments l ++
        render_hunk_lines_go fmt line_comments fuel rest
    | LineOrigin.deletion =>
      let dels := l :: rest.takeWhile (fun d => d.origin == LineOrigin.deletion)
      let r1 := rest.dropWhile (fun d => d.origin == LineOrigin.deletion)
      let adds := r1.takeWhile (fun d => d.origin == LineOrigin.addition)
      let r2 := r1.dropWhile (fun d => d.origin == LineOrigin.addition)
      render_pair_block fmt line_comments dels adds ++
        render_hunk_lines_go fmt line_comments fuel r2
    | LineOrigin.addition =>
      SbsRow.data none (some l) :: new_side_comments fmt line_comments l ++
        render_hunk_lines_go fmt line_comments fuel rest

/-- Model of `render_hunk_lines_side_by_side` for one hunk's line
sequence. -/
def render_hunk_lines_side_by_side (fmt : Comment → Nat)
    (line_comments : Nat → List Comment) (hunk_lines : List DiffLine) : List SbsRow :=
  render_hunk_lines_go fmt line_comments hunk_lines.length hunk_lines

/-! ## Spec-side definitions

Definitions written from the spec's words, for comparison with the code's
definitions above (refinement claims C1 and C2). -/

/-- From the spec (§4.1): "Line numbers are assigned by a running counter
per side, starting at the hunk's declared start values, incremented only
for the side(s) a line occupies" — Addition occupies the new side only,
Deletion the old side only, Context both. -/
def assignNumbers (old_ctr new_ctr : Nat) : List LineOrigin → List (Option Nat × Option Nat)
  | [] => []
  | LineOrigin.addition :: rest => (none, some new_ctr) :: assignNumbers old_ctr (new_ctr + 1) rest
  | LineOrigin.deletion :: rest => (some old_ctr, none) :: assignNumbers (old_ctr + 1) new_ctr rest
  | LineOrigin.context :: rest =>
    (some old_ctr, some new_ctr) :: assignNumbers (old_ctr + 1) (new_ctr + 1) rest

/-- From the spec (§4.3 row-count contract): a reviewed file contributes
exactly its one header row; a non-reviewed file contributes 1 header row,
its file-comment rows, per hunk 1 header row plus per line 1 row plus
that line's comment rows, and 1 trailing separator row.  Comment row
counts are opaque inputs (`fileCommentRows`, `lineCommentRows`). -/
def specFileRowCount (reviewed : Bool) (fileCommentRows : Nat)
    (lineCommentRows : DiffLine → Nat) (f : DiffFile) : Nat :=
  if reviewed then 1
  else
    1 + fileCommentRows +
      (f.hunks.map (fun h => 1 + (h.lines.map (fun l => 1 + lineCommentRows l)).sum)).sum + 1

/-! ## Concrete instances used by witnesses and counterexamples -/

/-- A one-character context line. -/
def exLine : DiffLine := ⟨LineOrigin.context, str "x", some 1, some 1⟩

/-- A hunk with a single context line. -/
def exHunk : DiffHunk := ⟨str "@@ -1 +1 @@", [exLine], 1, 1, 1, 1⟩

/-- A modified file with one one-line hunk (render height 2 + (1+1) = 4). -/
def fileA : DiffFile :=
  ⟨some (str "a.txt"), some (str "a.txt"), FileStatus.modified, [exHunk], false⟩

/-- A modified file with no hunks (render height 2 + 1 = 3). -/
def fileB : DiffFile :=
  ⟨some (str "b.txt"), some (str "b.txt"), FileStatus.modified, [], false⟩

/-- The diff text of the spec's line-numbering example (§8). -/
def c1Text : List Char :=
  str "diff --git a/file.txt b/file.txt\n--- a/file.txt\n+++ b/file.txt\n@@ -5,4 +5,5 @@\n context\n-deleted\n+added1\n+added2\n more\n"

/-- The hunk the parser produces for `c1Text`. -/
def c1Hunk : DiffHunk :=
  ⟨str "@@ -5,4 +5,5 @@",
    [⟨LineOrigin.context, str "context", some 5, some 5⟩,
     ⟨LineOrigin.deletion, str "deleted", some 6, none⟩,
     ⟨LineOrigin.addition, str "added1", none, some 6⟩,
     ⟨LineOrigin.addition, str "added2", none, some 7⟩,
     ⟨LineOrigin.context, str "more", some 7, some 8⟩],
    5, 4, 5, 5⟩

/-- The file the parser produces for `c1Text`. -/
def c1File : DiffFile :=
  ⟨some (str "file.txt"), some (str "file.txt"), FileStatus.modified, [c1Hunk], false⟩

/-- An empty review session with fixed identifiers. -/
def exSession : ReviewSession :=
  ⟨str "id", str "1.0", str "/repo", str "abc", 0, 0, [], none⟩

/-! ## C8 — `add_file` idempotence -/

/-- C8: `ReviewSession::add_file` inserts a fresh `FileReview` only when
the path is absent; when a `FileReview` already exists for the path the
session is left entirely unchanged, so `add_file` composed with itself
equals a single `add_file`. -/
theorem C8_add_file_idempotent (s : ReviewSession) (p : List Char) (st : FileStatus) :
    (s.add_file p st).add_file p st = s.add_file p st ∧
      ((s.files.lookup p).isSome → s.add_file p st = s) := by
  constructor
  · by_cases h : (s.files.lookup p).isSome
    · simp [ReviewSession.add_file, h]
    · simp only [ReviewSession.add_file, h, if_false, Bool.false_eq_true]
      simp [List.lookup]
  · intro h
    simp [ReviewSession.add_file, h]

/-- Witness for C8: on a session already tracking `"a.txt"`, re-adding it
changes nothing, and double insertion into the empty session equals a
single insertion. -/
theorem C8_witness :
    ((exSession.add_file (str "a.txt") FileStatus.modified).files.lookup
        (str "a.txt")).isSome = true ∧
      ((exSession.add_file (str "a.txt") FileStatus.modified).add_file
          (str "a.txt") FileStatus.modified) =
        exSession.add_file (str "a.txt") FileStatus.modified :=
  ⟨by decide,
    (C8_add_file_idempotent (exSession.add_file (str "a.txt") FileStatus.modified)
        (str "a.txt") FileStatus.modified).2 (by decide)⟩

/-! ## C4 — empty or header-less input yields `NoChanges` -/

/-- The outer file loop finds no file when no line carries a
`diff --git ` header. -/
theorem parse_files_go_nil (fuel : Nat) (ls : List (List Char))
    (h : ∀ l ∈ ls, startsWith (str "diff --git ") l = false) :
    parse_files_go fuel ls = [] := by
  induction fuel generalizing ls with
  | zero => cases ls <;> simp [parse_files_go]
  | succ fuel ih =>
    cases ls with
    | nil => simp [parse_files_go]
    | cons l rest =>
      have hl := h l (by simp)
      simp only [parse_files_go, hl, Bool.false_eq_true, if_false]
      exact ih rest (fun x hx => h x (by simp [hx]))

/-- C4: parsing empty diff text, or text with no recognized file section
(no line starting with `diff --git `), returns the `NoChanges` error and
never a successful empty list. -/
theorem C4_no_changes (text : List Char)
    (h : ∀ l ∈ rustLines text, startsWith (str "diff --git ") l = false) :
    parse_unified_diff text = Except.error TuicrError.noChanges := by
  simp [parse_unified_diff, parse_files_go_nil _ _ h]

/-- Witness for C4: the empty text and a nonempty text without any file
header both produce the `NoChanges` error. -/
theorem C4_witness :
    parse_unified_diff [] = Except.error TuicrError.noChanges ∧
      parse_unified_diff (str "hello\nworld\n") = Except.error TuicrError.noChanges :=
  ⟨C4_no_changes [] (by decide), C4_no_changes (str "hello\nworld\n") (by decide)⟩

/-! ## C10 — repeated stripping of `a/` from header paths -/

/-- `n` concatenated copies of a pattern. -/
def patRep (pat : List Char) : Nat → List Char
  | 0 => []
  | n + 1 => pat ++ patRep pat n

theorem patRep_length (pat : List Char) (n : Nat) :
    (patRep pat n).length = n * pat.length := by
  induction n with
  | zero => simp [patRep]
  | succ n ih => simp [patRep, ih, Nat.succ_mul, Nat.add_comm]

/-- When the pattern does not match the front, the strip loop stops at
once, whatever the fuel. -/
theorem trimRepGo_of_not_matches (pat l : List Char) (h : pat.isPrefixOf l = false)
    (fuel : Nat) : trimRepGo pat fuel l = l := by
  cases fuel <;> simp [trimRepGo, h]

/-- One round of the strip loop removes one copy of the pattern. -/
theorem trimRepGo_append (pat l : List Char) (hp : pat ≠ []) (fuel : Nat) :
    trimRepGo pat (fuel + 1) (pat ++ l) = trimRepGo pat fuel l := by
  have hpre : pat.isPrefixOf (pat ++ l) = true := by
    simp [List.isPrefixOf_iff_prefix]
  simp [trimRepGo, hp, hpre, List.drop_left]

/-- With enough fuel, the strip loop removes every leading copy of the
pattern. -/
theorem trimRepGo_patRep (pat p : List Char) (hp : pat ≠ [])
    (hnp : pat.isPrefixOf p = false) (n fuel : Nat) (hf : n ≤ fuel) :
    trimRepGo pat fuel (patRep pat n ++ p) = p := by
  induction n generalizing fuel with
  | zero => simpa [patRep] using trimRepGo_of_not_matches pat p hnp fuel
  | succ n ih =>
    cases fuel with
    | zero => omega
    | succ fuel =>
      have : patRep pat (n + 1) ++ p = pat ++ (patRep pat n ++ p) := by
        simp [patRep]
      rw [this, trimRepGo_append pat _ hp fuel]
      exact ih fuel (by omega)

/-- `trim_start_matches` removes every leading repetition of a nonempty
pattern, not just the first. -/
theorem trimStartMatches_patRep (pat p : List Char) (hp : pat ≠ [])
    (hnp : pat.isPrefixOf p = false) (n : Nat) :
    trimStartMatches pat (patRep pat n ++ p) = p := by
  have hlen : 1 ≤ pat.length := by
    cases pat with
    | nil => exact absurd rfl hp
    | cons c cs => simp
  refine trimRepGo_patRep pat p hp hnp n _ ?_
  calc n = n * 1 := by omega
    _ ≤ n * pat.length := Nat.mul_le_mul_left n hlen
    _ ≤ (patRep pat n ++ p).length := by simp [patRep_length]

/-- C10: in a `---` header line, all leading repetitions of `a/` are
stripped from the path: a file whose real path itself begins with `a/`
(the line shows `n ≥ 1` copies of `a/` before a path `p` that starts with
no further copy) is recorded with old path `p`, the `a/` prefixes gone. -/
theorem C10_strip_all_a_prefixes (n : Nat) (p : List Char) (ls : List (List Char))
    (hn : 1 ≤ n) (hp : (str "a/").isPrefixOf p = false) (hd : p ≠ str "/dev/null") :
    (parse_file_header
        ((str "--- " ++ patRep (str "a/") n ++ p) :: str "+++ /dev/null" :: ls)).1.1 =
      some p := by
  obtain ⟨m, rfl⟩ : ∃ m, n = m + 1 := ⟨n - 1, by omega⟩
  have hstart : startsWith (str "---") (str "--- " ++ patRep (str "a/") (m + 1) ++ p) = true := by
    simp [startsWith, str, patRep, List.isPrefixOf]
  have htrim1 :
      trimStartMatches (str "--- ") (str "--- " ++ patRep (str "a/") (m + 1) ++ p) =
        patRep (str "a/") (m + 1) ++ p := by
    have h4 : str "--- " ++ patRep (str "a/") (m + 1) ++ p =
        patRep (str "--- ") 1 ++ (patRep (str "a/") (m + 1) ++ p) := by
      simp [patRep]
    rw [h4]
    refine trimStartMatches_patRep _ _ (by decide) ?_ 1
    simp [str, patRep, List.isPrefixOf]
  have htrim2 :
      trimStartMatches (str "a/") (patRep (str "a/") (m + 1) ++ p) = p :=
    trimStartMatches_patRep _ _ (by decide) hp (m + 1)
  simp only [parse_file_header, parse_file_header_go, hstart, if_true, htrim1, htrim2]
  simp [hd, parse_file_header_go, startsWith, str, List.isPrefixOf, trimStartMatches,
    trimRepGo]
  exact hd

/-- Witness for C10: `--- a/a/sub/file.txt` records old path
`sub/file.txt`, not `a/sub/file.txt`. -/
theorem C10_witness :
    (parse_file_header
        ((str "--- " ++ patRep (str "a/") 2 ++ str "sub/file.txt") ::
          str "+++ /dev/null" :: [])).1.1 = some (str "sub/file.txt") ∧
      str "--- " ++ patRep (str "a/") 2 ++ str "sub/file.txt" = str "--- a/a/sub/file.txt" ∧
      some (str "sub/file.txt") ≠ some (str "a/sub/file.txt") :=
  ⟨C10_strip_all_a_prefixes 2 (str "sub/file.txt") [] (by decide) (by decide) (by decide),
    by decide, by decide⟩

/-! ## C6 — status inferred from path presence when no marker is given -/

/-- A header metadata line that sets an explicit file status. -/
def isStatusMarker (l : List Char) : Bool :=
  startsWith (str "new file") l || startsWith (str "deleted file") l ||
    startsWith (str "rename from") l || startsWith (str "copy from") l

/-- The header loop consumes a prefix of its input, and leaves the
incoming status untouched unless it consumes an explicit status-marker
line. -/
theorem parse_file_header_go_split :
    ∀ (ls : List (List Char)) (o n : Option (List Char)) (st : FileStatus),
      ∃ pre, ls = pre ++ (parse_file_header_go o n st ls).2 ∧
        ((∀ l ∈ pre, isStatusMarker l = false) →
          (parse_file_header_go o n st ls).1.2.2 = st) := by
  intro ls
  induction ls with
  | nil => exact fun o n st => ⟨[], by simp [parse_file_header_go]⟩
  | cons l rest ih =>
    intro o n st
    by_cases h1 : startsWith (str "---") l
    · obtain ⟨pre, heq, himp⟩ :=
        ih (if trimStartMatches (str "a/") (trimStartMatches (str "--- ") l) ≠ str "/dev/null"
            then some (trimStartMatches (str "a/") (trimStartMatches (str "--- ") l))
            else o) n st
      refine ⟨l :: pre, ?_, ?_⟩
      · simp only [parse_file_header_go, h1, if_true]
        simpa using heq
      · intro H
        simp only [parse_file_header_go, h1, if_true]
        exact himp (fun x hx => H x (by simp [hx]))
    · by_cases h2 : startsWith (str "+++") l
      · refine ⟨[l], ?_, ?_⟩ <;> simp [parse_file_header_go, h1, h2]
      · by_cases h3 : startsWith (str "new file") l
        · obtain ⟨pre, heq, _⟩ := ih o n FileStatus.added
          refine ⟨l :: pre, ?_, ?_⟩
          · simp only [parse_file_header_go, h1, h2, h3, if_true, if_false]
            simpa using heq
          · intro H
            have := H l (by simp)
            simp [isStatusMarker, h3] at this
        · by_cases h4 : startsWith (str "deleted file") l
          · obtain ⟨pre, heq, _⟩ := ih o n FileStatus.deleted
            refine ⟨l :: pre, ?_, ?_⟩
            · simp only [parse_file_header_go, h1, h2, h3, h4, if_true, if_false]
              simpa using heq
            · intro H
              have := H l (by simp)
              simp [isStatusMarker, h4] at this
          · by_cases h5 : startsWith (str "rename from") l
            · obtain ⟨pre, heq, _⟩ := ih o n FileStatus.renamed
              refine ⟨l :: pre, ?_, ?_⟩
              · simp only [parse_file_header_go, h1, h2, h3, h4, h5, if_true, if_false]
                simpa using heq
              · intro H
                have := H l (by simp)
                simp [isStatusMarker, h5] at this
            · by_cases h6 : startsWith (str "copy from") l
              · obtain ⟨pre, heq, _⟩ := ih o n FileStatus.copied
                refine ⟨l :: pre, ?_, ?_⟩
                · simp only [parse_file_header_go, h1, h2, h3, h4, h5, h6, if_true, if_false]
                  simpa using heq
                · intro H
                  have := H l (by simp)
                  simp [isStatusMarker, h6] at this
              · by_cases h7 : startsWith (str "@@") l || startsWith (str "diff ") l ||
                    containsSub (str "Binary") l
                · exact ⟨[], by simp [parse_file_header_go, h1, h2, h3, h4, h5, h6, h7]⟩
                · obtain ⟨pre, heq, himp⟩ := ih o n st
                  refine ⟨l :: pre, ?_, ?_⟩
                  · simp only [parse_file_header_go, h1, h2, h3, h4, h5, h6, h7, if_true,
                      if_false]
                    simpa using heq
                  · intro H
                    simp only [parse_file_header_go, h1, h2, h3, h4, h5, h6, h7, if_true,
                      if_false]
                    exact himp (fun x hx => H x (by simp [hx]))

/-- C6: for a file section whose header (the lines the header parser
consumes) carries no explicit status-marker line, the parsed status is
Added iff the old path is absent and the new path present, Deleted iff
the old path is present and the new path absent, and Modified
otherwise. -/
theorem C6_status_from_paths (ls pre : List (List Char))
    (hsplit : ls = pre ++ (parse_file_header ls).2)
    (hfree : ∀ l ∈ pre, isStatusMarker l = false) :
    ((parse_file_header ls).1.2.2 = FileStatus.added ↔
      (parse_file_header ls).1.1 = none ∧ (parse_file_header ls).1.2.1 ≠ none) ∧
    ((parse_file_header ls).1.2.2 = FileStatus.deleted ↔
      (parse_file_header ls).1.1 ≠ none ∧ (parse_file_header ls).1.2.1 = none) ∧
    ((parse_file_header ls).1.2.2 = FileStatus.modified ↔
      ¬((parse_file_header ls).1.1 = none ∧ (parse_file_header ls).1.2.1 ≠ none) ∧
      ¬((parse_file_header ls).1.1 ≠ none ∧ (parse_file_header ls).1.2.1 = none)) := by
  obtain ⟨pre', heq, himp⟩ :=
    parse_file_header_go_split ls none none FileStatus.modified
  have hrest : (parse_file_header ls).2 = (parse_file_header_go none none FileStatus.modified ls).2 := by
    simp [parse_file_header]
  have hpre : pre = pre' := by
    rw [hrest] at hsplit
    have := hsplit.symm.trans heq
    exact List.append_cancel_right this
  have hst : (parse_file_header_go none none FileStatus.modified ls).1.2.2 =
      FileStatus.modified := himp (hpre ▸ hfree)
  simp only [parse_file_header, hst]
  rcases ho : (parse_file_header_go none none FileStatus.modified ls).1.1 with _ | op <;>
    rcases hn : (parse_file_header_go none none FileStatus.modified ls).1.2.1 with _ | np <;>
      simp

/-- Witness for C6: a header with `--- /dev/null` and `+++ b/x` and no
status marker parses with status Added. -/
theorem C6_witness :
    (parse_file_header [str "--- /dev/null", str "+++ b/x", str "@@ -1 +1 @@"]).1.2.2 =
      FileStatus.added :=
  (C6_status_from_paths [str "--- /dev/null", str "+++ b/x", str "@@ -1 +1 @@"]
      [str "--- /dev/null", str "+++ b/x"] (by decide) (by decide)).1.mpr (by decide)

/-! ## C2 — what `jump_to_file` sets `scroll_offset` to -/

/-- The countdown loop of `calculate_file_scroll_offset` sums the render
heights of the first `k` files. -/
theorem calculate_file_scroll_offset_go_eq (k : Nat) (files : List DiffFile) :
    calculate_file_scroll_offset_go k files =
      ((files.take k).map file_render_height).sum := by
  induction k generalizing files with
  | zero => cases files <;> simp [calculate_file_scroll_offset_go]
  | succ k ih =>
    cases files with
    | nil => simp [calculate_file_scroll_offset_go]
    | cons f rest => simp [calculate_file_scroll_offset_go, ih]

/-- C2, counterexample to the claim as stated: with `fileA` reviewed (one
hunk of one line, no comments), the spec's row-count contract gives 1 row
for it, but `jump_to_file 1` sets `scroll_offset` to `fileA`'s code render
height 4 — the code counts 2 header rows and the full body regardless of
reviewed state. -/
theorem C2_counterexample :
    (jump_to_file (App.init [fileA, fileB]) 1).diff_state.scroll_offset ≠
      specFileRowCount true 0 (fun _ => 0) fileA := by
  decide

/-- C2 (amended): for every valid index, `jump_to_file idx` sets
`current_file_idx` and `selected` to `idx` and sets `scroll_offset` to the
sum of `file_render_height` over the files strictly before `idx`, where a
file's render height is 2 header rows plus `max 1` of (its diff lines
plus one hunk-header row per hunk) — independent of reviewed state and of
comments. -/
theorem C2_jump_sets_offset (app : App) (idx : Nat) (h : idx < app.diff_files.length) :
    (jump_to_file app idx).diff_state.current_file_idx = idx ∧
      (jump_to_file app idx).file_list_state.selected = idx ∧
      (jump_to_file app idx).diff_state.scroll_offset =
        ((app.diff_files.take idx).map file_render_height).sum := by
  simp [jump_to_file, h, calculate_file_scroll_offset, calculate_file_scroll_offset_go_eq]

/-- Witness for C2 (amended): jumping to file 1 of `[fileA, fileB]` puts
the cursor on it with scroll offset 4, `fileA`'s render height. -/
theorem C2_witness :
    (jump_to_file (App.init [fileA, fileB]) 1).diff_state.current_file_idx = 1 ∧
      (jump_to_file (App.init [fileA, fileB]) 1).file_list_state.selected = 1 ∧
      (jump_to_file (App.init [fileA, fileB]) 1).diff_state.scroll_offset =
        (([fileA, fileB].take 1).map file_render_height).sum :=
  C2_jump_sets_offset (App.init [fileA, fileB]) 1 (by decide)

/-! ## C7 — navigation on an empty changeset -/

/-- C7, counterexample to the claim as stated: on an empty changeset,
scrolling down by 1 is not a no-op — it changes `scroll_offset`. -/
theorem C7_counterexample : scroll_down (App.init []) 1 ≠ App.init [] := by
  decide

/-- Every navigation operation leaves `diff_files` unchanged. -/
theorem applyOp_diff_files (app : App) (op : NavOp) :
    (applyOp app op).diff_files = app.diff_files := by
  cases op <;>
    simp only [applyOp, jump_to_file, next_file, prev_file, scroll_down, scroll_up,
      update_current_file_from_scroll] <;>
    repeat' split <;> simp

/-- C7 (amended): on an empty changeset `jump_to_file`, `next_file` and
`prev_file` are no-ops; `scroll_down`/`scroll_up` change only
`scroll_offset` (adding, resp. subtracting with floor 0) and leave
`current_file_idx` and `selected` untouched; hence after any operation
sequence from the initial state both indices remain 0. -/
theorem C7_empty_changeset :
    (∀ app : App, app.diff_files = [] → ∀ idx n,
      jump_to_file app idx = app ∧ next_file app = app ∧ prev_file app = app ∧
      (scroll_down app n).diff_state.current_file_idx =
        app.diff_state.current_file_idx ∧
      (scroll_down app n).file_list_state.selected = app.file_list_state.selected ∧
      (scroll_down app n).diff_state.scroll_offset =
        app.diff_state.scroll_offset + n ∧
      (scroll_up app n).diff_state.current_file_idx =
        app.diff_state.current_file_idx ∧
      (scroll_up app n).file_list_state.selected = app.file_list_state.selected ∧
      (scroll_up app n).diff_state.scroll_offset =
        app.diff_state.scroll_offset - n) ∧
    (∀ ops, (applyOps (App.init []) ops).diff_state.current_file_idx = 0 ∧
      (applyOps (App.init []) ops).file_list_state.selected = 0) := by
  have hops : ∀ (app : App) (op : NavOp), app.diff_files = [] →
      (applyOp app op).diff_state.current_file_idx = app.diff_state.current_file_idx ∧
      (applyOp app op).file_list_state.selected = app.file_list_state.selected := by
    intro app op he
    cases op <;>
      simp [applyOp, jump_to_file, next_file, prev_file, scroll_down, scroll_up,
        update_current_file_from_scroll, fileAtOffset, he]
  constructor
  · intro app he idx n
    refine ⟨?_, ?_, ?_, ?_, ?_, ?_, ?_, ?_, ?_⟩ <;>
      simp [jump_to_file, next_file, prev_file, scroll_down, scroll_up,
        update_current_file_from_scroll, fileAtOffset, he]
  · intro ops
    suffices h : ∀ (app : App), app.diff_files = [] →
        (applyOps app ops).diff_state.current_file_idx = app.diff_state.current_file_idx ∧
        (applyOps app ops).file_list_state.selected = app.file_list_state.selected by
      exact h (App.init []) rfl
    induction ops with
    | nil => intro app _; exact ⟨rfl, rfl⟩
    | cons op rest ih =>
      intro app he
      have h1 := hops app op he
      have h2 := ih (applyOp app op) (by rw [applyOp_diff_files, he])
      simp only [applyOps, List.foldl_cons] at h2 ⊢
      exact ⟨h2.1.trans h1.1, h2.2.trans h1.2⟩

/-- Witness for C7 (amended): the concrete empty changeset, jumping,
stepping and scrolling by 3. -/
theorem C7_witness :
    jump_to_file (App.init []) 5 = App.init [] ∧
      (scroll_down (App.init []) 3).diff_state.scroll_offset = 0 + 3 ∧
      (applyOps (App.init []) [NavOp.down 3, NavOp.next]).diff_state.current_file_idx = 0 :=
  ⟨((C7_empty_changeset.1 (App.init []) rfl 5 3).1),
    ((C7_empty_changeset.1 (App.init []) rfl 5 3).2.2.2.2.2.1),
    (C7_empty_changeset.2 [NavOp.down 3, NavOp.next]).1⟩

/-! ## Navigation invariant (C3, C9) -/

/-- Every file renders to at least one row (in fact at least 3: two
header rows and a floored-at-1 body). -/
theorem file_render_height_pos (f : DiffFile) : 0 < file_render_height f := by
  simp [file_render_height]

/-- Characterization of the scroll walk: a hit means the offset lies in
that file's row range. -/
theorem fileAtOffset_some (files : List DiffFile) (off i : Nat)
    (h : fileAtOffset files off = some i) :
    ∃ f, files.get? i = some f ∧
      calculate_file_scroll_offset files i ≤ off ∧
      off < calculate_file_scroll_offset files i + file_render_height f := by
  induction files generalizing off i with
  | nil => simp [fileAtOffset] at h
  | cons f rest ih =>
    by_cases hlt : off < file_render_height f
    · simp only [fileAtOffset, hlt, if_true, Option.some.injEq] at h
      subst h
      exact ⟨f, rfl, by simp [calculate_file_scroll_offset, calculate_file_scroll_offset_go],
        by simpa [calculate_file_scroll_offset, calculate_file_scroll_offset_go] using hlt⟩
    · simp only [fileAtOffset, hlt, if_false, Option.map_eq_some'] at h
      obtain ⟨j, hj, rfl⟩ := h
      obtain ⟨g, hg, hle, hlt2⟩ := ih (off - file_render_height f) j hj
      refine ⟨g, by simpa using hg, ?_, ?_⟩
      · have : calculate_file_scroll_offset (f :: rest) (j + 1) =
            file_render_height f + calculate_file_scroll_offset rest j := rfl
        omega
      · have : calculate_file_scroll_offset (f :: rest) (j + 1) =
            file_render_height f + calculate_file_scroll_offset rest j := rfl
        omega

/-- A miss means the offset is at or past the total row count. -/
theorem fileAtOffset_none (files : List DiffFile) (off : Nat)
    (h : fileAtOffset files off = none) : totalRows files ≤ off := by
  induction files generalizing off with
  | nil => simp [totalRows]
  | cons f rest ih =>
    by_cases hlt : off < file_render_height f
    · simp [fileAtOffset, hlt] at h
    · simp only [fileAtOffset, hlt, if_false, Option.map_eq_none'] at h
      have := ih (off - file_render_height f) h
      simp only [totalRows, List.map_cons, List.sum_cons] at *
      omega

/-- The state invariant the navigation engine maintains:
`current_file_idx` and `selected` agree, and on a nonempty changeset the
index is valid and the scroll offset either lies in that file's row range
or is past the end with the cursor clamped to the last file. -/
def NavInv (app : App) : Prop :=
  app.diff_state.current_file_idx = app.file_list_state.selected ∧
  (app.diff_files = [] ∨
    (app.diff_state.current_file_idx < app.diff_files.length ∧
      (scrollInCurrentFileRange app = true ∨
        (totalRows app.diff_files ≤ app.diff_state.scroll_offset ∧
          app.diff_state.current_file_idx = app.diff_files.length - 1))))

theorem navInv_init (files : List DiffFile) : NavInv (App.init files) := by
  cases files with
  | nil => exact ⟨rfl, Or.inl rfl⟩
  | cons f rest =>
    refine ⟨rfl, Or.inr ⟨by simp [App.init], Or.inl ?_⟩⟩
    simp [scrollInCurrentFileRange, App.init, calculate_file_scroll_offset,
      calculate_file_scroll_offset_go, file_render_height_pos]

theorem navInv_jump (app : App) (idx : Nat) (h : NavInv app) :
    NavInv (jump_to_file app idx) := by
  by_cases hlt : idx < app.diff_files.length
  · obtain ⟨f, hf⟩ : ∃ f, app.diff_files.get? idx = some f := by
      rw [List.get?_eq_get hlt]
      exact ⟨_, rfl⟩
    refine ⟨by simp [jump_to_file, hlt], Or.inr ⟨by simp [jump_to_file, hlt], Or.inl ?_⟩⟩
    simp [jump_to_file, hlt, scrollInCurrentFileRange, hf, file_render_height_pos]
  · simpa [jump_to_file, hlt] using h

theorem navInv_update (app : App)
    (h : app.diff_state.current_file_idx = app.file_list_state.selected) :
    NavInv (update_current_file_from_scroll app) := by
  rcases hfo : fileAtOffset app.diff_files app.diff_state.scroll_offset with _ | i
  · by_cases he : app.diff_files = []
    · simp only [update_current_file_from_scroll, hfo]
      rw [if_neg (by simp [he])]
      exact ⟨h, Or.inl he⟩
    · have htot := fileAtOffset_none _ _ hfo
      simp only [update_current_file_from_scroll, hfo]
      rw [if_pos (by simpa using he)]
      have hlen : 0 < app.diff_files.length := List.length_pos.mpr he
      exact ⟨rfl, Or.inr ⟨by simpa using Nat.sub_lt hlen Nat.one_pos,
        Or.inr ⟨htot, rfl⟩⟩⟩
  · obtain ⟨f, hf, hle, hlt⟩ := fileAtOffset_some _ _ _ hfo
    have hil : i < app.diff_files.length := by
      by_contra hc
      rw [List.get?_eq_none.mpr (by omega)] at hf
      exact Option.noConfusion hf
    simp only [update_current_file_from_scroll, hfo]
    refine ⟨rfl, Or.inr ⟨by simpa using hil, Or.inl ?_⟩⟩
    have hf' : app.diff_files[i]? = some f := by
      rw [← List.get?_eq_getElem?]
      exact hf
    simp [scrollInCurrentFileRange, hf', hle, hlt]

theorem navInv_applyOp (app : App) (op : NavOp) (h : NavInv app) :
    NavInv (applyOp app op) := by
  cases op with
  | jump idx => exact navInv_jump app idx h
  | next => exact navInv_jump app _ h
  | prev => exact navInv_jump app _ h
  | down n => exact navInv_update _ h.1
  | up n => exact navInv_update _ h.1

theorem navInv_applyOps (app : App) (ops : List NavOp) (h : NavInv app) :
    NavInv (applyOps app ops) := by
  induction ops generalizing app with
  | nil => exact h
  | cons op rest ih => exact ih (applyOp app op) (navInv_applyOp app op h)

/-- Op sequences never change the changeset itself. -/
theorem applyOps_diff_files (app : App) (ops : List NavOp) :
    (applyOps app ops).diff_files = app.diff_files := by
  induction ops generalizing app with
  | nil => rfl
  | cons op rest ih =>
    simp only [applyOps, List.foldl_cons] at *
    rw [ih, applyOp_diff_files]

/-! ## C3 — the navigation invariant as claimed -/

/-- C3, counterexample to the claim as stated: one file of render height
4, scrolled down by 10 from the initial state; `current_file_idx` stays 0
(it still equals `selected`) but `scroll_offset = 10` lies outside the
file's row range `[0, 4)`, so the claimed invariant conjunction fails. -/
theorem C3_counterexample :
    ¬ ((applyOps (App.init [fileA]) [NavOp.down 10]).diff_state.current_file_idx =
          (applyOps (App.init [fileA]) [NavOp.down 10]).file_list_state.selected ∧
        scrollInCurrentFileRange (applyOps (App.init [fileA]) [NavOp.down 10]) = true) := by
  decide

/-- C3 (amended): after any finite sequence of `jump_to_file`,
`next_file`, `prev_file`, `scroll_down`, `scroll_up` calls from the
initial state, `current_file_idx` equals the file-list `selected` index,
and either the changeset is empty, or `scroll_offset` lies within the row
range of the file at `current_file_idx`, or `scroll_offset` is at or past
the total row count with `current_file_idx` clamped to the last file. -/
theorem C3_nav_invariant (files : List DiffFile) (ops : List NavOp) :
    (applyOps (App.init files) ops).diff_state.current_file_idx =
        (applyOps (App.init files) ops).file_list_state.selected ∧
      ((applyOps (App.init files) ops).diff_files = [] ∨
        scrollInCurrentFileRange (applyOps (App.init files) ops) = true ∨
        (totalRows (applyOps (App.init files) ops).diff_files ≤
            (applyOps (App.init files) ops).diff_state.scroll_offset ∧
          (applyOps (App.init files) ops).diff_state.current_file_idx =
            (applyOps (App.init files) ops).diff_files.length - 1)) := by
  obtain ⟨h1, h2⟩ := navInv_applyOps (App.init files) ops (navInv_init files)
  refine ⟨h1, ?_⟩
  rcases h2 with he | ⟨_, hr | hp⟩
  · exact Or.inl he
  · exact Or.inr (Or.inl hr)
  · exact Or.inr (Or.inr hp)

/-! ## C9 — indices stay valid on a nonempty changeset -/

/-- C9: on a nonempty changeset, after any sequence of navigation
operations `current_file_idx` and `selected` are valid file indices, so
`current_file()` returns `Some`; and `jump_to_file` ignores every
out-of-range index. -/
theorem C9_indices_valid (files : List DiffFile) (ops : List NavOp) (h : files ≠ []) :
    (applyOps (App.init files) ops).diff_state.current_file_idx <
        (applyOps (App.init files) ops).diff_files.length ∧
      (applyOps (App.init files) ops).file_list_state.selected <
        (applyOps (App.init files) ops).diff_files.length ∧
      (applyOps (App.init files) ops).current_file.isSome = true ∧
      (∀ idx, (applyOps (App.init files) ops).diff_files.length ≤ idx →
        jump_to_file (applyOps (App.init files) ops) idx =
          applyOps (App.init files) ops) := by
  obtain ⟨h1, h2⟩ := navInv_applyOps (App.init files) ops (navInv_init files)
  have hfe : (applyOps (App.init files) ops).diff_files = files :=
    applyOps_diff_files _ _
  rcases h2 with he | ⟨hlt, _⟩
  · exact absurd (hfe ▸ he) h
  · refine ⟨hlt, h1 ▸ hlt, ?_, ?_⟩
    · simp only [App.current_file]
      rw [List.get?_eq_get hlt]
      rfl
    · intro idx hidx
      simp [jump_to_file, Nat.not_lt.mpr hidx]

/-- Witness for C9: one file, scroll far past the end then step to the
next file. -/
theorem C9_witness :
    (applyOps (App.init [fileA]) [NavOp.down 7, NavOp.next]).diff_state.current_file_idx <
        (applyOps (App.init [fileA]) [NavOp.down 7, NavOp.next]).diff_files.length ∧
      (applyOps (App.init [fileA]) [NavOp.down 7, NavOp.next]).file_list_state.selected <
        (applyOps (App.init [fileA]) [NavOp.down 7, NavOp.next]).diff_files.length ∧
      (applyOps (App.init [fileA]) [NavOp.down 7, NavOp.next]).current_file.isSome = true ∧
      (∀ idx, (applyOps (App.init [fileA]) [NavOp.down 7, NavOp.next]).diff_files.length ≤ idx →
        jump_to_file (applyOps (App.init [fileA]) [NavOp.down 7, NavOp.next]) idx =
          applyOps (App.init [fileA]) [NavOp.down 7, NavOp.next]) :=
  C9_indices_valid [fileA] [NavOp.down 7, NavOp.next] (by decide)

/-! ## C1 — line numbers are the running per-side counters -/

/-- A hunk's recorded line numbers are exactly the spec's running-counter
assignment started at its declared range starts. -/
def hunkNumbersOk (hk : DiffHunk) : Prop :=
  hk.lines.map (fun l => (l.old_lineno, l.new_lineno)) =
    assignNumbers hk.old_start hk.new_start (hk.lines.map (fun l => l.origin))

/-- The hunk-body loop realizes the running-counter assignment from any
pair of counter values. -/
theorem parse_hunk_body_numbers :
    ∀ (ls : List (List Char)) (o n : Nat),
      ((parse_hunk_body o n ls).1).map (fun l => (l.old_lineno, l.new_lineno)) =
        assignNumbers o n (((parse_hunk_body o n ls).1).map (fun l => l.origin)) := by
  intro ls
  induction ls with
  | nil => simp [parse_hunk_body, assignNumbers]
  | cons l rest ih =>
    intro o n
    simp only [parse_hunk_body]
    split_ifs <;> simp [assignNumbers, ih]

/-- Any hunk `parse_hunk` produces satisfies the counter assignment. -/
theorem parse_hunk_numbers (ls : List (List Char)) (hk : DiffHunk)
    (r : List (List Char)) (h : parse_hunk ls = (some hk, r)) : hunkNumbersOk hk := by
  cases ls with
  | nil => simp [parse_hunk] at h
  | cons l rest =>
    rcases hh : parse_hunk_header l with _ | q
    · simp [parse_hunk, hh] at h
    · simp only [parse_hunk, hh, Prod.mk.injEq, Option.some.injEq] at h
      obtain ⟨rfl, -⟩ := h
      exact parse_hunk_body_numbers rest q.1 q.2.2.1

/-- Every hunk collected by the hunk loop satisfies the counter
assignment. -/
theorem parse_hunks_go_numbers :
    ∀ (fuel : Nat) (ls : List (List Char)) (hk : DiffHunk),
      hk ∈ (parse_hunks_go fuel ls).1 → hunkNumbersOk hk := by
  intro fuel
  induction fuel with
  | zero => intro ls hk h; cases ls <;> simp [parse_hunks_go] at h
  | succ fuel ih =>
    intro ls hk h
    cases ls with
    | nil => simp [parse_hunks_go] at h
    | cons l rest =>
      by_cases h1 : startsWith (str "diff ") l
      · simp [parse_hunks_go, h1] at h
      · by_cases h2 : startsWith (str "@@") l
        · simp only [parse_hunks_go, h1, h2, if_true, if_false, Bool.false_eq_true] at h
          rcases hp : parse_hunk (l :: rest) with ⟨ho, hr⟩
          rw [hp] at h
          cases ho with
          | none => exact ih hr hk h
          | some hk' =>
            rcases List.mem_cons.mp h with rfl | hmem
            · exact parse_hunk_numbers (l :: rest) hk hr hp
            · exact ih hr hk hmem
        · simp only [parse_hunks_go, h1, h2, if_false, Bool.false_eq_true] at h
          exact ih rest hk h

/-- Every hunk of every file the file loop produces satisfies the counter
assignment (binary files carry no hunks). -/
theorem parse_files_go_numbers :
    ∀ (fuel : Nat) (ls : List (List Char)) (f : DiffFile),
      f ∈ parse_files_go fuel ls → ∀ hk ∈ f.hunks, hunkNumbersOk hk := by
  intro fuel
  induction fuel with
  | zero => intro ls f h; cases ls <;> simp [parse_files_go] at h
  | succ fuel ih =>
    intro ls f h
    cases ls with
    | nil => simp [parse_files_go] at h
    | cons l rest =>
      by_cases h1 : startsWith (str "diff --git ") l
      · simp only [parse_files_go, h1, if_true] at h
        rcases hr : (parse_file_header rest).2 with _ | ⟨b, r2⟩
        · rw [hr] at h
          simp only [List.mem_singleton] at h
          subst h
          intro hk hmem
          simp at hmem
        · rw [hr] at h
          by_cases hb : containsSub (str "Binary") b
          · simp only [hb, if_true] at h
            rcases List.mem_cons.mp h with rfl | hmem
            · intro hk hmem; simp at hmem
            · exact ih r2 f hmem
          · simp only [hb, Bool.false_eq_true, if_false] at h
            rcases List.mem_cons.mp h with rfl | hmem
            · intro hk hmem
              exact parse_hunks_go_numbers _ _ hk hmem
            · exact ih _ f hmem
      · simp only [parse_files_go, h1, if_false, Bool.false_eq_true] at h
        exact ih rest f h

/-- C1: in every hunk of every parsed file, the recorded (old, new) line
number pairs are exactly those of a running counter per side that starts
at the hunk header's declared start values and advances only on the
side(s) each line occupies: an Addition numbers and advances the new side
only, a Deletion the old side only, a Context (or empty) line both. -/
theorem C1_line_numbers (text : List Char) (fs : List DiffFile) (f : DiffFile)
    (hk : DiffHunk) (h1 : parse_unified_diff text = Except.ok fs) (h2 : f ∈ fs)
    (h3 : hk ∈ f.hunks) :
    hk.lines.map (fun l => (l.old_lineno, l.new_lineno)) =
      assignNumbers hk.old_start hk.new_start (hk.lines.map (fun l => l.origin)) := by
  simp only [parse_unified_diff] at h1
  by_cases he : parse_files_go (rustLines text).length (rustLines text) = []
  · rw [if_pos he] at h1
    exact absurd h1 (by simp)
  · rw [if_neg he] at h1
    injection h1 with h1
    subst h1
    exact parse_files_go_numbers _ _ f h2 hk h3

/-- Witness for C1: the spec's example `@@ -5,4 +5,5 @@` with lines
context, deletion, two additions, context parses to the number pairs
(5,5) (6,None) (None,6) (None,7) (7,8). -/
theorem C1_witness :
    parse_unified_diff c1Text = Except.ok [c1File] ∧
      c1Hunk.lines.map (fun l => (l.old_lineno, l.new_lineno)) =
        assignNumbers c1Hunk.old_start c1Hunk.new_start
          (c1Hunk.lines.map (fun l => l.origin)) ∧
      c1Hunk.lines.map (fun l => (l.old_lineno, l.new_lineno)) =
        [(some 5, some 5), (some 6, none), (none, some 6), (none, some 7),
          (some 7, some 8)] :=
  ⟨by rfl,
    C1_line_numbers c1Text [c1File] c1File c1Hunk (by rfl) (by decide) (by decide),
    by decide⟩

/-! ## C5 — positional pairing of deletion and addition runs -/

/-- With no comments on any line, `add_comments_to_line` emits nothing. -/
theorem add_comments_to_line_empty (fmt : Comment → Nat) (ln : Nat) (side : LineSide) :
    add_comments_to_line fmt ln (fun _ => []) side = [] := by
  simp [add_comments_to_line]

theorem takeWhile_append_all {α : Type} (p : α → Bool) (xs ys : List α)
    (h : ∀ x ∈ xs, p x = true) :
    (xs ++ ys).takeWhile p = xs ++ ys.takeWhile p := by
  induction xs with
  | nil => simp
  | cons x xs ih =>
    simp only [List.cons_append, List.takeWhile_cons, h x (by simp), if_true]
    rw [ih (fun y hy => h y (by simp [hy]))]

theorem dropWhile_append_all {α : Type} (p : α → Bool) (xs ys : List α)
    (h : ∀ x ∈ xs, p x = true) :
    (xs ++ ys).dropWhile p = ys.dropWhile p := by
  induction xs with
  | nil => simp
  | cons x xs ih =>
    simp only [List.cons_append, List.dropWhile_cons, h x (by simp), if_true]
    exact ih (fun y hy => h y (by simp [hy]))

/-- With no comments, the pair block is exactly the positionally paired
data rows. -/
theorem render_pair_block_no_comments (fmt : Comment → Nat) (dels adds : List DiffLine) :
    render_pair_block fmt (fun _ => []) dels adds =
      (List.range (max dels.length adds.length)).map
        (fun i => SbsRow.data (dels.get? i) (adds.get? i)) := by
  have hA : ∀ od : Option DiffLine,
      (match od with
        | some d =>
          match d.old_lineno with
          | some ln => add_comments_to_line fmt ln (fun _ => []) LineSide.old
          | none => []
        | none => ([] : List SbsRow)) = [] := by
    intro od
    cases od with
    | none => rfl
    | some d =>
      rcases h : d.old_lineno with _ | ln <;> simp [h, add_comments_to_line_empty]
  have hB : ∀ od : Option DiffLine,
      (match od with
        | some a =>
          match a.new_lineno with
          | some ln => add_comments_to_line fmt ln (fun _ => []) LineSide.new
          | none => []
        | none => ([] : List SbsRow)) = [] := by
    intro od
    cases od with
    | none => rfl
    | some a =>
      rcases h : a.new_lineno with _ | ln <;> simp [h, add_comments_to_line_empty]
  simp only [render_pair_block, hA, hB, List.append_nil]
  induction List.range (max dels.length adds.length) with
  | nil => rfl
  | cons i is ih =>
    simp only [List.flatMap_cons, List.map_cons, List.singleton_append, ih]

/-- The aligner loop emits nothing on an empty line list, whatever the
fuel. -/
theorem render_hunk_lines_go_nil (fmt : Comment → Nat) (cm : Nat → List Comment)
    (fuel : Nat) : render_hunk_lines_go fmt cm fuel [] = [] := by
  cases fuel <;> rfl

/-- C5: a maximal run of consecutive deletions followed by the maximal
run of consecutive additions right after it renders as exactly
`max(del_count, add_count)` rows, row `i` carrying deletion `i` on the
left and addition `i` on the right when they exist and a blank column for
the shorter run's excess rows (stated for a hunk slice consisting of the
two runs, with no line comments). -/
theorem C5_pairing (fmt : Comment → Nat) (dels adds : List DiffLine)
    (h1 : dels ≠ []) (h2 : ∀ d ∈ dels, d.origin = LineOrigin.deletion)
    (h3 : ∀ a ∈ adds, a.origin = LineOrigin.addition) :
    render_hunk_lines_side_by_side fmt (fun _ => []) (dels ++ adds) =
      (List.range (max dels.length adds.length)).map
        (fun i => SbsRow.data (dels.get? i) (adds.get? i)) := by
  obtain ⟨d, ds, rfl⟩ := List.exists_cons_of_ne_nil h1
  have hd : d.origin = LineOrigin.deletion := h2 d (by simp)
  have htake1 : (ds ++ adds).takeWhile (fun x => x.origin == LineOrigin.deletion) = ds := by
    rw [takeWhile_append_all _ _ _ (fun x hx => by simp [h2 x (by simp [hx])])]
    cases adds with
    | nil => simp
    | cons a as =>
      rw [List.takeWhile_cons, if_neg (by simp [h3 a (by simp)]), List.append_nil]
  have hdrop1 : (ds ++ adds).dropWhile (fun x => x.origin == LineOrigin.deletion) = adds := by
    rw [dropWhile_append_all _ _ _ (fun x hx => by simp [h2 x (by simp [hx])])]
    cases adds with
    | nil => simp
    | cons a as =>
      rw [List.dropWhile_cons, if_neg (by simp [h3 a (by simp)])]
  have htake2 : adds.takeWhile (fun x => x.origin == LineOrigin.addition) = adds := by
    cases adds with
    | nil => rfl
    | cons a as =>
      rw [← List.append_nil (a :: as)]
      rw [takeWhile_append_all _ _ _ (fun x hx => by simp [h3 x (by simpa using hx)])]
      simp
  have hdrop2 : adds.dropWhile (fun x => x.origin == LineOrigin.addition) = [] := by
    cases adds with
    | nil => rfl
    | cons a as =>
      rw [← List.append_nil (a :: as)]
      rw [dropWhile_append_all _ _ _ (fun x hx => by simp [h3 x (by simpa using hx)])]
      rfl
  show render_hunk_lines_go fmt (fun _ => []) ((d :: ds) ++ adds).length (d :: (ds ++ adds)) = _
  simp only [List.cons_append, List.length_cons, render_hunk_lines_go, hd, htake1, hdrop1,
    htake2, hdrop2, render_hunk_lines_go_nil, List.append_nil]
  exact render_pair_block_no_comments fmt (d :: ds) adds

/-- A deletion line numbered `k` on the old side. -/
def delLine (k : Nat) : DiffLine := ⟨LineOrigin.deletion, str "d", some k, none⟩

/-- An addition line numbered `k` on the new side. -/
def addLine (k : Nat) : DiffLine := ⟨LineOrigin.addition, str "a", none, some k⟩

/-- Witness for C5: 3 deletions then 1 addition give 3 rows with a blank
right column on rows 2–3; 1 deletion then 3 additions give 3 rows with a
blank left column on rows 2–3. -/
theorem C5_witness :
    render_hunk_lines_side_by_side (fun _ => 0) (fun _ => [])
        ([delLine 1, delLine 2, delLine 3] ++ [addLine 1]) =
      [SbsRow.data (some (delLine 1)) (some (addLine 1)),
        SbsRow.data (some (delLine 2)) none,
        SbsRow.data (some (delLine 3)) none] ∧
      render_hunk_lines_side_by_side (fun _ => 0) (fun _ => [])
          ([delLine 1] ++ [addLine 1, addLine 2, addLine 3]) =
        [SbsRow.data (some (delLine 1)) (some (addLine 1)),
          SbsRow.data none (some (addLine 2)),
          SbsRow.data none (some (addLine 3))] :=
  ⟨(C5_pairing (fun _ => 0) [delLine 1, delLine 2, delLine 3] [addLine 1]
      (by decide) (by decide) (by decide)).trans (by decide),
    (C5_pairing (fun _ => 0) [delLine 1] [addLine 1, addLine 2, addLine 3]
      (by decide) (by decide) (by decide)).trans (by decide)⟩

end Tuicr
